import Mathlib

/-!
Verification of the rgx widget-core event routing.

A shallow embedding of the input-event dispatch protocol of the `rgx`
UI toolkit: the `Pod` wrapper (src/ui/widgets/pod.rs), the `ZStack`
container routing (src/ui/widgets/zstack.rs), the default `Widget`
hit test (src/ui/widgets/widget.rs) and the per-frame move coalescing
of the application loop (src/application.rs).

Geometry (`Point`, `Offset`, `Size`, rectangle containment, inverse
translation) lives in the repository's `crate::math` module, which is
not part of the source snapshot; those few primitives are modelled
from the spec over integer coordinates (the spec's own scenarios use
integral coordinates, and no claim depends on the numeric field).
All routing logic is translated directly from the Rust source.

Inner widgets are arbitrary client code behind the `Widget` trait; we
model one as an oracle: its shape-specific `contains` hit test and the
`ControlFlow` its `event` handler returns.  The dispatch functions are
instrumented to also return the sequence of deliveries they perform
(which child `Pod` was invoked with which event, and which events each
`Pod` forwarded to its inner widget); the Rust code performs these
calls for effect, so the trace is exactly the observable behaviour the
spec talks about.
-/

namespace Rgx

/-- Modelled from the spec: 2-D point, `crate::math` is not in the
source snapshot; integer coordinates. -/
structure Point where
  x : Int
  y : Int
deriving DecidableEq

/-- Modelled from the spec: offset of a widget inside its parent's
local coordinate space. -/
structure Offset where
  x : Int
  y : Int
deriving DecidableEq

/-- Modelled from the spec: layout size of a widget. -/
structure Size where
  w : Int
  h : Int
deriving DecidableEq

/-- Modelled from the spec: applying the inverse of a translation by
`o` to a point (`point.untransform(Transform::translate(offset))` in
pod.rs, "applying the inverse of the child's offset" in the spec). -/
def Point.untranslate (p : Point) (o : Offset) : Point :=
  ⟨p.x - o.x, p.y - o.y⟩

/-- Modelled from the spec: an axis-aligned rectangle given by its
origin and extent. -/
structure Rect where
  x : Int
  y : Int
  w : Int
  h : Int
deriving DecidableEq

/-- Rust `Rect::origin(size)`: the rectangle `(0, 0, size)`. -/
def Rect.origin (s : Size) : Rect :=
  ⟨0, 0, s.w, s.h⟩

/-- Modelled from the spec: rectangular containment test used by the
`Pod` bounds check ("the rectangular bounds (0,0,size) contain it"). -/
def Rect.containsP (r : Rect) (p : Point) : Bool :=
  decide (r.x ≤ p.x ∧ p.x < r.x + r.w ∧ r.y ≤ p.y ∧ p.y < r.y + r.h)

/-- Mouse button identity (src/platform): only its identity matters to
routing. -/
inductive MouseButton where
  | left
  | right
  | middle
deriving DecidableEq

/-- The `WidgetEvent` enum (src/ui/widgets/widget.rs, lines 27-50).  Payload
types that play no role in routing (scroll delta, key, modifiers,
characters, durations) are simplified to plain data. -/
inductive WidgetEvent where
  | mouseDown (button : MouseButton)
  | mouseUp (button : MouseButton)
  | mouseScroll (dx dy : Int)
  | mouseMove (p : Point)
  | resized (s : Size)
  | mouseEnter
  | mouseExit
  | focus (b : Bool)
  | keyDown (key : Nat) (rep : Bool)
  | keyUp (key : Nat)
  | characterReceived (c : Char)
  | paste (s : Option String)
  | tick (ms : Nat)
  | frame
deriving DecidableEq

/-- Rust `ControlFlow<()>` as returned by every event handler. -/
inductive Flow where
  | cont
  | brk
deriving DecidableEq

/-- Widget general context (src/ui/context.rs): cursor position in the
current local space plus the enclosing `Pod`'s hot/active flags.  The
accumulated render transform and the texture table do not participate
in routing decisions and are omitted. -/
structure Context where
  cursor : Point
  hot : Bool
  active : Bool
deriving DecidableEq

/-- An inner widget behind the `Widget` trait, abstracted as an
oracle: its shape-specific `contains` and the `ControlFlow` its
`event` handler returns for each event. -/
structure InnerWidget where
  contains : Point → Bool
  flow : WidgetEvent → Flow

/-- The default `Widget::contains` (src/ui/widgets/widget.rs, lines
89-94): always `true` — "the `Pod` around the widget will do a
preliminary bounds check". -/
def defaultContains : Point → Bool :=
  fun _ => true

/-- The `Pod` wrapper (src/ui/widgets/pod.rs, lines 8-17). -/
structure Pod where
  id : Nat
  size : Size
  offset : Offset
  hot : Bool
  active : Bool
  widget : InnerWidget

/-- Rust `Pod::context` (pod.rs, lines 32-34): derive the child context by
offsetting the cursor and overwriting the hot/active flags with the
pod's own. -/
def Pod.context (p : Pod) (parent : Context) : Context :=
  ⟨parent.cursor.untranslate p.offset, p.hot, p.active⟩

/-- Rust `Pod::bounds` (pod.rs, lines 36-38): `Rect::origin(self.size)`. -/
def Pod.bounds (p : Pod) : Rect :=
  Rect.origin p.size

/-- Rust `Pod::contains` (pod.rs, lines 159-161): subtract the offset and
delegate to the inner widget; note there is no check against the
pod's own rectangular bounds here. -/
def Pod.containsP (p : Pod) (pt : Point) : Bool :=
  p.widget.contains (pt.untranslate p.offset)

/-- Result of one `Pod::event` call: the updated pod, the returned
`ControlFlow`, and the events the pod forwarded to its inner widget
during the call (at most one). -/
structure PodEventResult where
  pod : Pod
  flow : Flow
  out : List WidgetEvent

/-- Rust `Pod::event` (pod.rs, lines 77-143), translated arm by arm. -/
def Pod.event (p : Pod) (e : WidgetEvent) (parent : Context) : PodEventResult :=
  let ctx := p.context parent
  match e with
  | .mouseEnter =>
      if p.bounds.containsP ctx.cursor && p.widget.contains ctx.cursor then
        ⟨{ p with hot := true }, p.widget.flow .mouseEnter, [.mouseEnter]⟩
      else
        ⟨p, .cont, []⟩
  | .mouseExit =>
      if p.hot then
        ⟨{ p with hot := false }, p.widget.flow .mouseExit, [.mouseExit]⟩
      else
        ⟨p, .cont, []⟩
  | .mouseMove pt =>
      let cursor := pt.untranslate p.offset
      if p.bounds.containsP cursor && p.widget.contains cursor then
        if p.hot then
          ⟨p, p.widget.flow (.mouseMove cursor), [.mouseMove cursor]⟩
        else
          ⟨{ p with hot := true }, p.widget.flow .mouseEnter, [.mouseEnter]⟩
      else if p.hot then
        ⟨{ p with hot := false }, p.widget.flow .mouseExit, [.mouseExit]⟩
      else
        ⟨p, .cont, []⟩
  | .mouseDown b =>
      if p.hot then
        ⟨{ p with active := true }, p.widget.flow (.mouseDown b), [.mouseDown b]⟩
      else
        ⟨p, .cont, []⟩
  | .mouseUp b =>
      if p.active then
        ⟨{ p with active := false }, p.widget.flow (.mouseUp b), [.mouseUp b]⟩
      else
        ⟨p, .cont, []⟩
  | e =>
      ⟨p, p.widget.flow e, [e]⟩

/-- The `ZStack` container (src/ui/widgets/zstack.rs, lines 5-9): a z-ordered stack
of child pods, painted bottom-to-top in child order. -/
structure ZStack where
  widgets : List Pod

/-- Rust `ZStack::contains` (zstack.rs, lines 44-46): true when any child
(scanned in reverse) contains the point. -/
def ZStack.containsP (z : ZStack) (pt : Point) : Bool :=
  z.widgets.reverse.any (fun w => w.containsP pt)

/-- Result of the reverse scan of `ZStack::event` (zstack.rs, lines
49-70): the (still reversed) updated pods, the `flow` variable, the
`hot` variable, the child-pod invocations performed (`sent`, child id
with the event it was invoked with) and the events those pods
forwarded to their inner widgets (`inner`). -/
structure ZScanResult where
  pods : List Pod
  flow : Flow
  hotId : Option Nat
  sent : List (Nat × WidgetEvent)
  inner : List (Nat × WidgetEvent)

/-- The `MouseMove` arm of the `for widget in
self.widgets.iter_mut().rev()` loop of `ZStack::event` (zstack.rs,
lines 52-61 and 67-69), as a recursion over the reversed child list
(head = topmost child): the first child whose `contains` accepts the
point is invoked, recorded in `hot`, and the loop breaks; children the
scan skips are not invoked at all. -/
def zscanMove (pt : Point) (ctx : Context) : List Pod → ZScanResult
  | [] => ⟨[], .cont, none, [], []⟩
  | w :: rest =>
      if w.containsP pt then
        let r := w.event (.mouseMove pt) ctx
        ⟨r.pod :: rest, r.flow, some w.id, [(w.id, .mouseMove pt)],
          r.out.map (fun ev => (w.id, ev))⟩
      else
        let s := zscanMove pt ctx rest
        ⟨w :: s.pods, s.flow, s.hotId, s.sent, s.inner⟩

/-- The non-`MouseMove` arm of the same loop (zstack.rs, lines 62-64
and 67-69): each child is invoked in turn until one returns `Break`
(`if let ControlFlow::Break(_) = flow { break; }`). -/
def zscanOther (e : WidgetEvent) (ctx : Context) : List Pod → ZScanResult
  | [] => ⟨[], .cont, none, [], []⟩
  | w :: rest =>
      let r := w.event e ctx
      if r.flow = .brk then
        ⟨r.pod :: rest, r.flow, none, [(w.id, e)],
          r.out.map (fun ev => (w.id, ev))⟩
      else
        let s := zscanOther e ctx rest
        ⟨r.pod :: s.pods, s.flow, s.hotId, (w.id, e) :: s.sent,
          r.out.map (fun ev => (w.id, ev)) ++ s.inner⟩

/-- The scan loop of `ZStack::event` (zstack.rs, lines 52-70).  The
`match event` inside the Rust loop body is hoisted out of the
recursion, which is equivalent because the event is fixed for the
whole loop. -/
def zscan (e : WidgetEvent) (ctx : Context) (l : List Pod) : ZScanResult :=
  match e with
  | .mouseMove pt => zscanMove pt ctx l
  | _ => zscanOther e ctx l

/-- The synthetic-exit loop of `ZStack::event` (zstack.rs, lines
72-78): every child other than the new hot child `i` that is still
hot receives a `MouseExit`; the returned flows are discarded.  Runs in
forward child order.  Returns the updated pods together with the
pod-level and inner-level delivery traces. -/
def zexits (i : Nat) (ctx : Context) :
    List Pod → List Pod × List (Nat × WidgetEvent) × List (Nat × WidgetEvent)
  | [] => ([], [], [])
  | w :: rest =>
      let s := zexits i ctx rest
      if w.id ≠ i ∧ w.hot then
        let r := w.event .mouseExit ctx
        (r.pod :: s.1, (w.id, .mouseExit) :: s.2.1,
          r.out.map (fun ev => (w.id, ev)) ++ s.2.2)
      else
        (w :: s.1, s.2.1, s.2.2)

/-- Result of a full `ZStack::event` dispatch, instrumented with the
chosen hot child and the delivery traces. -/
structure ZEventResult where
  widgets : List Pod
  flow : Flow
  hotId : Option Nat
  sent : List (Nat × WidgetEvent)
  inner : List (Nat × WidgetEvent)

/-- Rust `ZStack::event` (zstack.rs, lines 48-80): reverse scan, then — only
when the scan recorded a new hot child — the synthetic-exit loop over
all other children. -/
def ZStack.eventFull (z : ZStack) (e : WidgetEvent) (ctx : Context) : ZEventResult :=
  let s := zscan e ctx z.widgets.reverse
  let pods := s.pods.reverse
  match s.hotId with
  | some i =>
      let x := zexits i ctx pods
      ⟨x.1, s.flow, some i, s.sent ++ x.2.1, s.inner ++ x.2.2⟩
  | none => ⟨pods, s.flow, none, s.sent, s.inner⟩

/-- Rust `ZStack::event` as its signature exposes it: the mutated
stack and the returned flow. -/
def ZStack.event (z : ZStack) (e : WidgetEvent) (ctx : Context) : ZStack × Flow :=
  let r := z.eventFull e ctx
  (⟨r.widgets⟩, r.flow)

/-- Dispatch a sequence of `MouseMove` events to a stack, each with
its own per-dispatch context. -/
def ZStack.dispatchMoves (z : ZStack) : List (Point × Context) → ZStack
  | [] => z
  | m :: rest => ((z.event (.mouseMove m.1) m.2).1).dispatchMoves rest

/-- Whether an event is a pure pointer move. -/
def isMouseMove : WidgetEvent → Bool
  | .mouseMove _ => true
  | _ => false

/-- The move-coalescing step of the application loop
(src/application.rs, lines 305-317): when the frame's queue holds more
than one event and every one of them is a `MouseMove`, all but the
last are drained; otherwise the queue is dispatched unchanged. -/
def coalesce (events : List WidgetEvent) : List WidgetEvent :=
  if 1 < events.length ∧ events.all isMouseMove then
    events.drop (events.length - 1)
  else
    events

/-! ## Basic lemmas about `Pod.event` -/

/-- The function `Pod.event` never changes the pod's identity. -/
theorem Pod.event_id (p : Pod) (e : WidgetEvent) (ctx : Context) :
    (p.event e ctx).pod.id = p.id := by
  cases e <;> simp only [Pod.event] <;> split <;> try split
  all_goals rfl

/-- A hot pod receiving `MouseExit` clears `hot` and forwards the exit
to its inner widget (pod.rs, lines 92-99). -/
theorem Pod.event_exit_of_hot (p : Pod) (ctx : Context) (h : p.hot = true) :
    p.event .mouseExit ctx =
      ⟨{ p with hot := false }, p.widget.flow .mouseExit, [.mouseExit]⟩ := by
  simp [Pod.event, h]

/-- A non-hot pod receiving `MouseExit` is left unchanged and forwards
nothing. -/
theorem Pod.event_exit_of_not_hot (p : Pod) (ctx : Context) (h : p.hot = false) :
    p.event .mouseExit ctx = ⟨p, .cont, []⟩ := by
  simp [Pod.event, h]

/-! ## Claim theorems about single `Pod` dispatches -/

/-- C3: For every `Pod` receiving `MouseMove(point)`, the point is
transformed into the pod's local space (`point - offset`); if the
rectangular bounds `(0,0,size)` contain the local point and the inner
widget's `contains` accepts it, then a hot pod forwards `MouseMove`
with the local point while a non-hot pod sets `hot` and forwards a
synthetic `MouseEnter` instead; if that containment fails and the pod
was hot, `hot` is cleared and the inner widget receives `MouseExit`;
otherwise nothing is forwarded and `Continue` is returned. -/
theorem C3_pod_mousemove_cases (p : Pod) (pt : Point) (ctx : Context) :
    ((p.bounds.containsP (pt.untranslate p.offset) &&
        p.widget.contains (pt.untranslate p.offset)) = true →
      (p.hot = true →
        p.event (.mouseMove pt) ctx =
          ⟨p, p.widget.flow (.mouseMove (pt.untranslate p.offset)),
            [.mouseMove (pt.untranslate p.offset)]⟩) ∧
      (p.hot = false →
        p.event (.mouseMove pt) ctx =
          ⟨{ p with hot := true }, p.widget.flow .mouseEnter, [.mouseEnter]⟩)) ∧
    ((p.bounds.containsP (pt.untranslate p.offset) &&
        p.widget.contains (pt.untranslate p.offset)) = false →
      (p.hot = true →
        p.event (.mouseMove pt) ctx =
          ⟨{ p with hot := false }, p.widget.flow .mouseExit, [.mouseExit]⟩) ∧
      (p.hot = false → p.event (.mouseMove pt) ctx = ⟨p, .cont, []⟩)) := by
  constructor <;> intro hin <;> constructor <;> intro hhot <;>
    simp [Pod.event, hin, hhot]

/-- C3 witness: the four branches evaluated at concrete pods (a 10×10
pod at offset (2,3), cursor in or out of bounds, hot or not). -/
theorem C3_witness :
    (Pod.event ⟨0, ⟨10, 10⟩, ⟨2, 3⟩, true, false,
        ⟨defaultContains, fun _ => .cont⟩⟩ (.mouseMove ⟨5, 5⟩) ⟨⟨5, 5⟩, false, false⟩ =
      ⟨⟨0, ⟨10, 10⟩, ⟨2, 3⟩, true, false, ⟨defaultContains, fun _ => .cont⟩⟩,
        .cont, [.mouseMove ⟨3, 2⟩]⟩) ∧
    (Pod.event ⟨1, ⟨10, 10⟩, ⟨2, 3⟩, false, false,
        ⟨defaultContains, fun _ => .cont⟩⟩ (.mouseMove ⟨5, 5⟩) ⟨⟨5, 5⟩, false, false⟩ =
      ⟨⟨1, ⟨10, 10⟩, ⟨2, 3⟩, true, false, ⟨defaultContains, fun _ => .cont⟩⟩,
        .cont, [.mouseEnter]⟩) ∧
    (Pod.event ⟨2, ⟨10, 10⟩, ⟨2, 3⟩, true, false,
        ⟨defaultContains, fun _ => .cont⟩⟩ (.mouseMove ⟨50, 50⟩) ⟨⟨50, 50⟩, false, false⟩ =
      ⟨⟨2, ⟨10, 10⟩, ⟨2, 3⟩, false, false, ⟨defaultContains, fun _ => .cont⟩⟩,
        .cont, [.mouseExit]⟩) ∧
    (Pod.event ⟨3, ⟨10, 10⟩, ⟨2, 3⟩, false, false,
        ⟨defaultContains, fun _ => .cont⟩⟩ (.mouseMove ⟨50, 50⟩) ⟨⟨50, 50⟩, false, false⟩ =
      ⟨⟨3, ⟨10, 10⟩, ⟨2, 3⟩, false, false, ⟨defaultContains, fun _ => .cont⟩⟩,
        .cont, []⟩) :=
  ⟨((C3_pod_mousemove_cases _ ⟨5, 5⟩ _).1 (by decide)).1 rfl,
   ((C3_pod_mousemove_cases _ ⟨5, 5⟩ _).1 (by decide)).2 rfl,
   ((C3_pod_mousemove_cases _ ⟨50, 50⟩ _).2 (by decide)).1 rfl,
   ((C3_pod_mousemove_cases _ ⟨50, 50⟩ _).2 (by decide)).2 rfl⟩

/-- C4: a `MouseDown` is forwarded to the inner widget, and `active`
is set, exactly when the pod is hot; a non-hot pod swallows the press,
keeps its state unchanged, and returns `Continue` (pod.rs, lines
120-128). -/
theorem C4_pod_mousedown (p : Pod) (b : MouseButton) (ctx : Context) :
    ((p.event (.mouseDown b) ctx).pod.active = (p.hot || p.active)) ∧
    (p.hot = true →
      p.event (.mouseDown b) ctx =
        ⟨{ p with active := true }, p.widget.flow (.mouseDown b), [.mouseDown b]⟩) ∧
    (p.hot = false → p.event (.mouseDown b) ctx = ⟨p, .cont, []⟩) := by
  cases hh : p.hot <;> simp [Pod.event, hh]

/-- C4 witness: a hot pod accepts the press and becomes active; a
non-hot pod swallows it. -/
theorem C4_witness :
    (Pod.event ⟨4, ⟨10, 10⟩, ⟨0, 0⟩, true, false,
        ⟨defaultContains, fun _ => .brk⟩⟩ (.mouseDown .left) ⟨⟨1, 1⟩, false, false⟩ =
      ⟨⟨4, ⟨10, 10⟩, ⟨0, 0⟩, true, true, ⟨defaultContains, fun _ => .brk⟩⟩,
        .brk, [.mouseDown .left]⟩) ∧
    (Pod.event ⟨5, ⟨10, 10⟩, ⟨0, 0⟩, false, false,
        ⟨defaultContains, fun _ => .brk⟩⟩ (.mouseDown .left) ⟨⟨1, 1⟩, false, false⟩ =
      ⟨⟨5, ⟨10, 10⟩, ⟨0, 0⟩, false, false, ⟨defaultContains, fun _ => .brk⟩⟩,
        .cont, []⟩) :=
  ⟨(C4_pod_mousedown _ .left _).2.1 rfl, (C4_pod_mousedown _ .left _).2.2 rfl⟩

/-- C5: a `MouseUp` is forwarded to the inner widget, and `active` is
cleared, exactly when the pod is active — independently of the current
`hot` flag, so a press followed by dragging off the widget still
delivers the release; a non-active pod swallows it and returns
`Continue` (pod.rs, lines 129-140). -/
theorem C5_pod_mouseup (p : Pod) (b : MouseButton) (ctx : Context) :
    (p.active = true →
      p.event (.mouseUp b) ctx =
        ⟨{ p with active := false }, p.widget.flow (.mouseUp b), [.mouseUp b]⟩) ∧
    (p.active = false → p.event (.mouseUp b) ctx = ⟨p, .cont, []⟩) ∧
    (∀ h' : Bool,
      (({ p with hot := h' } : Pod).event (.mouseUp b) ctx).out =
        (p.event (.mouseUp b) ctx).out ∧
      (({ p with hot := h' } : Pod).event (.mouseUp b) ctx).pod.active =
        (p.event (.mouseUp b) ctx).pod.active) := by
  refine ⟨fun ha => by simp [Pod.event, ha], fun ha => by simp [Pod.event, ha], ?_⟩
  intro h'
  cases ha : p.active <;> simp [Pod.event, ha]

/-- C5 witness: an active pod that is no longer hot still receives the
release and deactivates; an inactive pod swallows it. -/
theorem C5_witness :
    (Pod.event ⟨6, ⟨10, 10⟩, ⟨0, 0⟩, false, true,
        ⟨defaultContains, fun _ => .cont⟩⟩ (.mouseUp .left) ⟨⟨90, 90⟩, false, false⟩ =
      ⟨⟨6, ⟨10, 10⟩, ⟨0, 0⟩, false, false, ⟨defaultContains, fun _ => .cont⟩⟩,
        .cont, [.mouseUp .left]⟩) ∧
    (Pod.event ⟨7, ⟨10, 10⟩, ⟨0, 0⟩, true, false,
        ⟨defaultContains, fun _ => .cont⟩⟩ (.mouseUp .left) ⟨⟨1, 1⟩, false, false⟩ =
      ⟨⟨7, ⟨10, 10⟩, ⟨0, 0⟩, true, false, ⟨defaultContains, fun _ => .cont⟩⟩,
        .cont, []⟩) :=
  ⟨(C5_pod_mouseup _ .left _).1 rfl, (C5_pod_mouseup _ .left _).2.1 rfl⟩

/-- C8 counterexample: a hot 10×10 pod whose local cursor (5,5) is
well inside its rectangular bounds still forwards an
ancestor-synthesized `MouseExit` to its inner widget — the `MouseExit`
arm consults only the `hot` flag (pod.rs, lines 92-99) and performs no
re-validation against the pod's bounds, contradicting the claim that
both synthesized events are re-validated before forwarding. -/
theorem C8_counterexample :
    ((Pod.event ⟨8, ⟨10, 10⟩, ⟨0, 0⟩, true, false,
        ⟨defaultContains, fun _ => .cont⟩⟩ .mouseExit ⟨⟨5, 5⟩, false, false⟩).out =
      [.mouseExit]) ∧
    (Pod.bounds ⟨8, ⟨10, 10⟩, ⟨0, 0⟩, true, false,
        ⟨defaultContains, fun _ => .cont⟩⟩).containsP
      (Point.untranslate ⟨5, 5⟩ ⟨0, 0⟩) = true := by
  constructor <;> rfl

/-- C8 (amended): only an ancestor-synthesized `MouseEnter` is
re-validated against the pod's bounds and the inner `contains` (using
the cursor in the pod's local space) before being forwarded; an
ancestor-synthesized `MouseExit` is forwarded exactly when the pod is
currently hot, with no bounds check at all — its outcome does not
depend on the cursor position. -/
theorem C8_amended_enter_exit (p : Pod) (ctx : Context) :
    ((p.bounds.containsP (ctx.cursor.untranslate p.offset) &&
        p.widget.contains (ctx.cursor.untranslate p.offset)) = true →
      p.event .mouseEnter ctx =
        ⟨{ p with hot := true }, p.widget.flow .mouseEnter, [.mouseEnter]⟩) ∧
    ((p.bounds.containsP (ctx.cursor.untranslate p.offset) &&
        p.widget.contains (ctx.cursor.untranslate p.offset)) = false →
      p.event .mouseEnter ctx = ⟨p, .cont, []⟩) ∧
    (p.hot = true →
      p.event .mouseExit ctx =
        ⟨{ p with hot := false }, p.widget.flow .mouseExit, [.mouseExit]⟩) ∧
    (p.hot = false → p.event .mouseExit ctx = ⟨p, .cont, []⟩) ∧
    (∀ ctx' : Context, p.event .mouseExit ctx' = p.event .mouseExit ctx) := by
  refine ⟨fun hin => ?_, fun hin => ?_, fun hh => ?_, fun hh => ?_, fun ctx' => ?_⟩
  · simp [Pod.event, Pod.context, hin]
  · simp [Pod.event, Pod.context, hin]
  · simp [Pod.event, hh]
  · simp [Pod.event, hh]
  · cases hh : p.hot <;> simp [Pod.event, hh]

/-- C8 amended witness: a pod whose bounds reject the cursor swallows
a synthesized `MouseEnter`; a hot pod forwards a synthesized
`MouseExit` whatever the cursor. -/
theorem C8_amended_witness :
    (Pod.event ⟨9, ⟨10, 10⟩, ⟨0, 0⟩, false, false,
        ⟨defaultContains, fun _ => .cont⟩⟩ .mouseEnter ⟨⟨50, 50⟩, false, false⟩ =
      ⟨⟨9, ⟨10, 10⟩, ⟨0, 0⟩, false, false, ⟨defaultContains, fun _ => .cont⟩⟩,
        .cont, []⟩) ∧
    (Pod.event ⟨10, ⟨10, 10⟩, ⟨0, 0⟩, true, false,
        ⟨defaultContains, fun _ => .cont⟩⟩ .mouseExit ⟨⟨4, 4⟩, false, false⟩ =
      ⟨⟨10, ⟨10, 10⟩, ⟨0, 0⟩, false, false, ⟨defaultContains, fun _ => .cont⟩⟩,
        .cont, [.mouseExit]⟩) :=
  ⟨(C8_amended_enter_exit _ ⟨⟨50, 50⟩, false, false⟩).2.1 (by decide),
   (C8_amended_enter_exit _ ⟨⟨4, 4⟩, false, false⟩).2.2.1 rfl⟩

/-! ## Lemmas about the reverse scan of `ZStack::event` -/

/-- When the reverse scan of a `MouseMove` records no hot child, no
child contained the point, no child was invoked, and every child is
left untouched. -/
theorem zscan_move_none (pt : Point) (ctx : Context) (l : List Pod)
    (h : (zscanMove pt ctx l).hotId = none) :
    (zscanMove pt ctx l).pods = l ∧
    (zscanMove pt ctx l).sent = [] ∧
    (zscanMove pt ctx l).inner = [] ∧
    ∀ w ∈ l, w.containsP pt = false := by
  induction l with
  | nil => exact ⟨rfl, rfl, rfl, by simp⟩
  | cons w rest ih =>
    by_cases hc : w.containsP pt
    · simp [zscanMove, hc] at h
    · simp only [zscanMove, hc, if_false, Bool.false_eq_true] at h ⊢
      have ⟨h1, h2, h3, h4⟩ := ih h
      refine ⟨by rw [h1], h2, h3, ?_⟩
      intro v hv
      rcases List.mem_cons.mp hv with hv | hv
      · subst hv; simpa using hc
      · exact h4 v hv

/-- When the reverse scan of a `MouseMove` records child `i` as hot,
the scanned (reversed) list splits as `l₁ ++ v :: l₂` where the
skipped prefix `l₁` does not contain the point, `v` is the first child
that does, `i` is `v`'s id, only `v` is invoked (with the move event),
and only `v` is updated. -/
theorem zscan_move_some (pt : Point) (ctx : Context) (i : Nat) (l : List Pod)
    (h : (zscanMove pt ctx l).hotId = some i) :
    ∃ l₁ v l₂, l = l₁ ++ v :: l₂ ∧
      (∀ u ∈ l₁, u.containsP pt = false) ∧
      v.containsP pt = true ∧ v.id = i ∧
      (zscanMove pt ctx l).pods =
        l₁ ++ (v.event (.mouseMove pt) ctx).pod :: l₂ ∧
      (zscanMove pt ctx l).sent = [(v.id, .mouseMove pt)] ∧
      (zscanMove pt ctx l).inner =
        (v.event (.mouseMove pt) ctx).out.map (fun ev => (v.id, ev)) ∧
      (zscanMove pt ctx l).flow = (v.event (.mouseMove pt) ctx).flow := by
  induction l with
  | nil => simp [zscanMove] at h
  | cons w rest ih =>
    by_cases hc : w.containsP pt
    · have hid : w.id = i := by
        simp only [zscanMove, hc, if_true] at h
        simpa using h
      refine ⟨[], w, rest, by simp, by simp, hc, hid, ?_, ?_, ?_, ?_⟩ <;>
        simp [zscanMove, hc]
    · simp only [zscanMove, hc, if_false, Bool.false_eq_true] at h ⊢
      obtain ⟨l₁, v, l₂, hsplit, hpre, hcv, hid, hpods, hsent, hinner, hflow⟩ := ih h
      refine ⟨w :: l₁, v, l₂, by rw [hsplit]; rfl, ?_, hcv, hid, ?_, hsent, hinner, hflow⟩
      · intro u hu
        rcases List.mem_cons.mp hu with hu | hu
        · subst hu; simpa using hc
        · exact hpre u hu
      · rw [hpods]; rfl

/-- The reverse scan of a `MouseMove` preserves the children's ids. -/
theorem zscan_move_map_id (pt : Point) (ctx : Context) (l : List Pod) :
    (zscanMove pt ctx l).pods.map Pod.id = l.map Pod.id := by
  induction l with
  | nil => rfl
  | cons w rest ih =>
    by_cases hc : w.containsP pt
    · simp [zscanMove, hc, Pod.event_id]
    · simp [zscanMove, hc, ih]

/-! ## Lemmas about the synthetic-exit loop of `ZStack::event` -/

/-- The exit loop preserves the children's ids. -/
theorem zexits_map_id (i : Nat) (ctx : Context) (l : List Pod) :
    (zexits i ctx l).1.map Pod.id = l.map Pod.id := by
  induction l with
  | nil => rfl
  | cons w rest ih =>
    by_cases hc : w.id ≠ i ∧ w.hot
    · simp [zexits, hc, Pod.event_id, ih]
    · simp [zexits, hc, ih]

/-- Every hot child whose id differs from the new hot child receives a
pod-level `MouseExit` from the exit loop. -/
theorem zexits_sent_mem (i : Nat) (ctx : Context) (l : List Pod) (w : Pod)
    (hw : w ∈ l) (hh : w.hot = true) (hne : w.id ≠ i) :
    (w.id, WidgetEvent.mouseExit) ∈ (zexits i ctx l).2.1 := by
  induction l with
  | nil => cases hw
  | cons v rest ih =>
    rcases List.mem_cons.mp hw with hv | hv
    · subst hv
      simp [zexits, hne, hh]
    · by_cases hc : v.id ≠ i ∧ v.hot
      · simp only [zexits, if_pos hc]
        exact List.mem_cons_of_mem _ (ih hv)
      · simp only [zexits, if_neg hc]
        exact ih hv

/-- Every hot child whose id differs from the new hot child forwards
the synthetic `MouseExit` to its inner widget during the exit loop. -/
theorem zexits_inner_mem (i : Nat) (ctx : Context) (l : List Pod) (w : Pod)
    (hw : w ∈ l) (hh : w.hot = true) (hne : w.id ≠ i) :
    (w.id, WidgetEvent.mouseExit) ∈ (zexits i ctx l).2.2 := by
  induction l with
  | nil => cases hw
  | cons v rest ih =>
    rcases List.mem_cons.mp hw with hv | hv
    · subst hv
      simp [zexits, hne, hh, Pod.event_exit_of_hot _ _ hh]
    · by_cases hc : v.id ≠ i ∧ v.hot
      · simp only [zexits, if_pos hc]
        refine List.mem_append_right _ (ih hv)
      · simp only [zexits, if_neg hc]
        exact ih hv

/-- After the exit loop, any child that is still hot has the id of the
new hot child. -/
theorem zexits_hot_id (i : Nat) (ctx : Context) (l : List Pod) (w' : Pod)
    (hw : w' ∈ (zexits i ctx l).1) (hh : w'.hot = true) :
    w'.id = i := by
  induction l with
  | nil => cases hw
  | cons v rest ih =>
    by_cases hc : v.id ≠ i ∧ v.hot
    · simp only [zexits, if_pos hc] at hw
      rcases List.mem_cons.mp hw with hv | hv
      · subst hv
        rw [Pod.event_exit_of_hot _ _ (by simpa using hc.2)] at hh
        simp at hh
      · exact ih hv
    · simp only [zexits, if_neg hc] at hw
      rcases List.mem_cons.mp hw with hv | hv
      · subst hv
        rcases not_and_or.mp hc with hcc | hcc
        · exact not_not.mp hcc
        · exact absurd hh (by simpa using hcc)
      · exact ih hv

/-- The result fields of `ZStack.eventFull` when the scan chose a new
hot child. -/
theorem eventFull_some (z : ZStack) (e : WidgetEvent) (ctx : Context) (i : Nat)
    (h : (zscan e ctx z.widgets.reverse).hotId = some i) :
    z.eventFull e ctx =
      ⟨(zexits i ctx (zscan e ctx z.widgets.reverse).pods.reverse).1,
        (zscan e ctx z.widgets.reverse).flow, some i,
        (zscan e ctx z.widgets.reverse).sent ++
          (zexits i ctx (zscan e ctx z.widgets.reverse).pods.reverse).2.1,
        (zscan e ctx z.widgets.reverse).inner ++
          (zexits i ctx (zscan e ctx z.widgets.reverse).pods.reverse).2.2⟩ := by
  simp [ZStack.eventFull, h]

/-- The result fields of `ZStack.eventFull` when the scan chose no new
hot child. -/
theorem eventFull_none (z : ZStack) (e : WidgetEvent) (ctx : Context)
    (h : (zscan e ctx z.widgets.reverse).hotId = none) :
    z.eventFull e ctx =
      ⟨(zscan e ctx z.widgets.reverse).pods.reverse,
        (zscan e ctx z.widgets.reverse).flow, none,
        (zscan e ctx z.widgets.reverse).sent,
        (zscan e ctx z.widgets.reverse).inner⟩ := by
  simp [ZStack.eventFull, h]

/-- The hot child recorded by `ZStack.eventFull` is the one recorded
by the reverse scan. -/
theorem eventFull_hotId (z : ZStack) (e : WidgetEvent) (ctx : Context) :
    (z.eventFull e ctx).hotId = (zscan e ctx z.widgets.reverse).hotId := by
  cases h : (zscan e ctx z.widgets.reverse).hotId with
  | none => rw [eventFull_none z e ctx h]
  | some i => rw [eventFull_some z e ctx i h]

/-- For a `MouseMove`, the scan is the `MouseMove` arm of the loop. -/
theorem zscan_move_eq (pt : Point) (ctx : Context) (l : List Pod) :
    zscan (.mouseMove pt) ctx l = zscanMove pt ctx l := rfl

/-- In a list of pods with pairwise distinct ids, at most one pod
carries any given id. -/
theorem countP_id_le_one (l : List Pod) (hnd : (l.map Pod.id).Nodup) (i : Nat) :
    l.countP (fun w => w.id == i) ≤ 1 := by
  have h1 : l.countP (fun w => w.id == i) = (l.map Pod.id).count i := by
    rw [List.count_eq_countP, List.countP_map]
    rfl
  rw [h1]
  exact List.nodup_iff_count_le_one.mp hnd i

/-- After the exit loop, at most one child is hot (the one whose id is
the new hot child's), provided ids are pairwise distinct. -/
theorem zexits_hot_count (i : Nat) (ctx : Context) (l : List Pod)
    (hnd : (l.map Pod.id).Nodup) :
    (zexits i ctx l).1.countP (fun w => w.hot) ≤ 1 := by
  have hmono : (zexits i ctx l).1.countP (fun w => w.hot) ≤
      (zexits i ctx l).1.countP (fun w => w.id == i) :=
    List.countP_mono_left (fun w hw hh => by
      simpa using zexits_hot_id i ctx l w hw (by simpa using hh))
  refine hmono.trans (countP_id_le_one _ ?_ i)
  rw [zexits_map_id]
  exact hnd

/-- Dispatching a `MouseMove` through a `ZStack` preserves the
children's ids. -/
theorem eventFull_move_map_id (z : ZStack) (pt : Point) (ctx : Context) :
    (z.eventFull (.mouseMove pt) ctx).widgets.map Pod.id = z.widgets.map Pod.id := by
  have hrev : (zscanMove pt ctx z.widgets.reverse).pods.reverse.map Pod.id =
      z.widgets.map Pod.id := by
    rw [List.map_reverse, zscan_move_map_id, List.map_reverse, List.reverse_reverse]
  cases h : (zscan (.mouseMove pt) ctx z.widgets.reverse).hotId with
  | none =>
    rw [eventFull_none z _ ctx h]
    exact hrev
  | some i =>
    rw [eventFull_some z _ ctx i h]
    dsimp only
    rw [zscan_move_eq, zexits_map_id]
    exact hrev

/-- One `MouseMove` dispatch leaves at most one hot child, provided at
most one child was hot before and ids are pairwise distinct. -/
theorem eventFull_move_hot_le_one (z : ZStack) (pt : Point) (ctx : Context)
    (hnd : (z.widgets.map Pod.id).Nodup)
    (h : z.widgets.countP (fun w => w.hot) ≤ 1) :
    (z.eventFull (.mouseMove pt) ctx).widgets.countP (fun w => w.hot) ≤ 1 := by
  cases hs : (zscan (.mouseMove pt) ctx z.widgets.reverse).hotId with
  | none =>
    rw [eventFull_none z _ ctx hs]
    obtain ⟨hp, -, -, -⟩ := zscan_move_none pt ctx z.widgets.reverse hs
    dsimp only
    rw [zscan_move_eq, hp, List.reverse_reverse]
    exact h
  | some i =>
    rw [eventFull_some z _ ctx i hs]
    dsimp only
    rw [zscan_move_eq]
    apply zexits_hot_count
    rw [List.map_reverse, zscan_move_map_id, List.map_reverse, List.reverse_reverse]
    exact hnd

/-- Dispatching any sequence of `MouseMove` events preserves the
at-most-one-hot invariant, provided ids are pairwise distinct. -/
theorem dispatchMoves_hot_le_one (moves : List (Point × Context)) :
    ∀ z : ZStack, (z.widgets.map Pod.id).Nodup →
      z.widgets.countP (fun w => w.hot) ≤ 1 →
      ((z.dispatchMoves moves).widgets.countP (fun w => w.hot)) ≤ 1 := by
  induction moves with
  | nil => intro z _ h; exact h
  | cons m rest ih =>
    intro z hnd h
    show (((z.event (.mouseMove m.1) m.2).1).dispatchMoves rest).widgets.countP
        (fun w => w.hot) ≤ 1
    refine ih _ ?_ ?_
    · show ((z.eventFull (.mouseMove m.1) m.2).widgets.map Pod.id).Nodup
      rw [eventFull_move_map_id]
      exact hnd
    · exact eventFull_move_hot_le_one z m.1 m.2 hnd h

/-! ## Claim theorems about `ZStack` routing -/

/-- C2: for every `ZStack` whose children all start with `hot = false`
(and whose ids are pairwise distinct, as `WidgetId::next` guarantees),
after every sequence of `MouseMove` dispatches at most one child pod
is hot.  The statement quantifies over all dispatch sequences, so it
holds in particular after each dispatch of any longer sequence. -/
theorem C2_hover_exclusive (z : ZStack) (moves : List (Point × Context))
    (hnd : (z.widgets.map Pod.id).Nodup)
    (h0 : ∀ w ∈ z.widgets, w.hot = false) :
    ((z.dispatchMoves moves).widgets.countP (fun w => w.hot)) ≤ 1 := by
  refine dispatchMoves_hot_le_one moves z hnd ?_
  have hz : z.widgets.countP (fun w => w.hot) = 0 :=
    List.countP_eq_zero.mpr (fun w hw => by simp [h0 w hw])
  omega

/-- C2 witness: a two-child stack, both children initially cold, after
two moves (one hitting the top child, one hitting nothing). -/
theorem C2_witness :
    ((ZStack.dispatchMoves ⟨[
        ⟨0, ⟨10, 10⟩, ⟨0, 0⟩, false, false, ⟨defaultContains, fun _ => .cont⟩⟩,
        ⟨1, ⟨10, 10⟩, ⟨0, 0⟩, false, false, ⟨defaultContains, fun _ => .cont⟩⟩]⟩
        [(⟨3, 3⟩, ⟨⟨3, 3⟩, false, false⟩), (⟨50, 50⟩, ⟨⟨50, 50⟩, false, false⟩)]).widgets.countP
      (fun w => w.hot)) ≤ 1 :=
  C2_hover_exclusive _ _ (by decide) (by decide)

/-- C1 counterexample: a one-child stack whose child is hot but whose
`contains` rejects the point.  A `MouseMove` dispatch finds no child
containing the point (`hot` stays `None` in zstack.rs line 50), so the
exit loop (guarded by `if let Some(id) = hot`, line 72) never runs:
the previously hot child receives no synthetic `MouseExit` — neither
at pod level (`sent`) nor at its inner widget (`inner`) — and stays
hot, contradicting "regardless of whether the reverse scan found any
child containing the point". -/
theorem C1_counterexample :
    ((ZStack.widgets ⟨[⟨0, ⟨10, 10⟩, ⟨0, 0⟩, true, false,
        ⟨fun _ => false, fun _ => .cont⟩⟩]⟩).map Pod.hot = [true]) ∧
    (ZStack.eventFull ⟨[⟨0, ⟨10, 10⟩, ⟨0, 0⟩, true, false,
        ⟨fun _ => false, fun _ => .cont⟩⟩]⟩ (.mouseMove ⟨3, 3⟩)
        ⟨⟨3, 3⟩, false, false⟩).hotId = none ∧
    (ZStack.eventFull ⟨[⟨0, ⟨10, 10⟩, ⟨0, 0⟩, true, false,
        ⟨fun _ => false, fun _ => .cont⟩⟩]⟩ (.mouseMove ⟨3, 3⟩)
        ⟨⟨3, 3⟩, false, false⟩).sent = [] ∧
    (ZStack.eventFull ⟨[⟨0, ⟨10, 10⟩, ⟨0, 0⟩, true, false,
        ⟨fun _ => false, fun _ => .cont⟩⟩]⟩ (.mouseMove ⟨3, 3⟩)
        ⟨⟨3, 3⟩, false, false⟩).inner = [] ∧
    (ZStack.eventFull ⟨[⟨0, ⟨10, 10⟩, ⟨0, 0⟩, true, false,
        ⟨fun _ => false, fun _ => .cont⟩⟩]⟩ (.mouseMove ⟨3, 3⟩)
        ⟨⟨3, 3⟩, false, false⟩).widgets.map Pod.hot = [true] := by
  refine ⟨rfl, ?_, ?_, ?_, ?_⟩ <;> rfl

/-- C1 (amended): when a `MouseMove` dispatch does choose a new hot
child `i` (the reverse scan found a child containing the point), every
child that was hot before the dispatch and is not the chosen child
receives a synthetic `MouseExit` during that dispatch; when no child
contains the point, no exits are sent (see the counterexample). -/
theorem C1_amended_exit_to_others (z : ZStack) (pt : Point) (ctx : Context)
    (i : Nat) (hi : (z.eventFull (.mouseMove pt) ctx).hotId = some i)
    (w : Pod) (hw : w ∈ z.widgets) (hhot : w.hot = true) (hne : w.id ≠ i) :
    (w.id, WidgetEvent.mouseExit) ∈ (z.eventFull (.mouseMove pt) ctx).sent := by
  have hs : (zscan (.mouseMove pt) ctx z.widgets.reverse).hotId = some i := by
    rw [← eventFull_hotId]
    exact hi
  rw [eventFull_some z _ ctx i hs]
  dsimp only
  refine List.mem_append_right _ ?_
  obtain ⟨l₁, v, l₂, hsplit, hpre, hcv, hid, hpods, -, -, -⟩ :=
    zscan_move_some pt ctx i z.widgets.reverse hs
  apply zexits_sent_mem i ctx _ w _ hhot hne
  rw [zscan_move_eq, List.mem_reverse, hpods]
  have hwrev : w ∈ l₁ ++ v :: l₂ := by
    rw [← hsplit]
    exact List.mem_reverse.mpr hw
  rcases List.mem_append.mp hwrev with h1 | h2
  · exact List.mem_append_left _ h1
  · rcases List.mem_cons.mp h2 with he | h3
    · exact absurd (he ▸ hid) hne
    · exact List.mem_append_right _ (List.mem_cons_of_mem _ h3)

/-- C1 amended witness: a two-child stack where the bottom child is
hot and the top child is chosen by a move; the bottom child receives
the synthetic exit. -/
theorem C1_amended_witness :
    (0, WidgetEvent.mouseExit) ∈ (ZStack.eventFull ⟨[
      ⟨0, ⟨10, 10⟩, ⟨0, 0⟩, true, false, ⟨defaultContains, fun _ => .cont⟩⟩,
      ⟨1, ⟨10, 10⟩, ⟨0, 0⟩, false, false, ⟨defaultContains, fun _ => .cont⟩⟩]⟩
      (.mouseMove ⟨3, 3⟩) ⟨⟨3, 3⟩, false, false⟩).sent :=
  C1_amended_exit_to_others _ _ _ 1 (by decide) _ (List.mem_cons_self _ _) rfl
    (by decide)

/-- C7 counterexample: a two-child stack whose bottom child (id 4) is
hot; a `MouseMove` into the top child (id 5) produces the inner-widget
deliveries `[(5, MouseEnter), (4, MouseExit)]` — the new hot child's
`MouseEnter` happens during the reverse scan (zstack.rs, line 56),
before the exit loop (lines 72-78) delivers the old child's
`MouseExit`.  This is the opposite of the claimed order (exit first,
then enter). -/
theorem C7_counterexample :
    ((ZStack.eventFull ⟨[
        ⟨4, ⟨20, 20⟩, ⟨0, 0⟩, true, false, ⟨defaultContains, fun _ => .cont⟩⟩,
        ⟨5, ⟨20, 20⟩, ⟨0, 0⟩, false, false, ⟨defaultContains, fun _ => .cont⟩⟩]⟩
        (.mouseMove ⟨7, 7⟩) ⟨⟨7, 7⟩, false, false⟩).inner =
      [(5, .mouseEnter), (4, .mouseExit)]) ∧
    ((ZStack.eventFull ⟨[
        ⟨4, ⟨20, 20⟩, ⟨0, 0⟩, true, false, ⟨defaultContains, fun _ => .cont⟩⟩,
        ⟨5, ⟨20, 20⟩, ⟨0, 0⟩, false, false, ⟨defaultContains, fun _ => .cont⟩⟩]⟩
        (.mouseMove ⟨7, 7⟩) ⟨⟨7, 7⟩, false, false⟩).inner ≠
      [(4, .mouseExit), (5, .mouseEnter)]) := by
  constructor
  · rfl
  · decide

/-- C7 (amended): when a `MouseMove` chooses a new hot child `i` that
was not hot before and whose pod-internal check (bounds and inner
`contains` at the local point) accepts the point, and some other child
`old` was hot, the inner-widget deliveries of the dispatch are, in
order: first the `MouseEnter` to the new hot child, then (among the
exit-loop deliveries) the `MouseExit` to the old hot child. -/
theorem C7_amended_enter_then_exit (z : ZStack) (pt : Point) (ctx : Context)
    (i : Nat) (hi : (z.eventFull (.mouseMove pt) ctx).hotId = some i)
    (hchosen : ∀ w ∈ z.widgets, w.id = i → w.hot = false ∧
      ((w.bounds.containsP (pt.untranslate w.offset) &&
        w.widget.contains (pt.untranslate w.offset)) = true))
    (old : Pod) (hold : old ∈ z.widgets) (hhot : old.hot = true)
    (hne : old.id ≠ i) :
    ∃ tr, (z.eventFull (.mouseMove pt) ctx).inner =
        (i, WidgetEvent.mouseEnter) :: tr ∧
      (old.id, WidgetEvent.mouseExit) ∈ tr := by
  have hs : (zscan (.mouseMove pt) ctx z.widgets.reverse).hotId = some i := by
    rw [← eventFull_hotId]
    exact hi
  obtain ⟨l₁, v, l₂, hsplit, hpre, hcv, hid, hpods, hsent, hinner, hflow⟩ :=
    zscan_move_some pt ctx i z.widgets.reverse hs
  have hv_mem : v ∈ z.widgets := by
    rw [← List.mem_reverse, hsplit]
    exact List.mem_append_right _ (List.mem_cons_self _ _)
  obtain ⟨hvhot, hvacc⟩ := hchosen v hv_mem hid
  have hout : (v.event (.mouseMove pt) ctx).out = [.mouseEnter] := by
    simp [Pod.event, hvacc, hvhot]
  rw [eventFull_some z _ ctx i hs]
  dsimp only
  rw [zscan_move_eq, hinner, hout, hid]
  refine ⟨_, rfl, ?_⟩
  apply zexits_inner_mem i ctx _ old _ hhot hne
  rw [List.mem_reverse, hpods]
  have hwrev : old ∈ l₁ ++ v :: l₂ := by
    rw [← hsplit]
    exact List.mem_reverse.mpr hold
  rcases List.mem_append.mp hwrev with h1 | h2
  · exact List.mem_append_left _ h1
  · rcases List.mem_cons.mp h2 with heq | h3
    · exact absurd (heq ▸ hid) hne
    · exact List.mem_append_right _ (List.mem_cons_of_mem _ h3)

/-- C7 amended witness: bottom child (id 6) hot, top child (id 7)
chosen and accepting; the enter to 7 precedes the exit to 6. -/
theorem C7_amended_witness :
    ∃ tr, (ZStack.eventFull ⟨[
        ⟨6, ⟨30, 30⟩, ⟨0, 0⟩, true, false, ⟨defaultContains, fun _ => .cont⟩⟩,
        ⟨7, ⟨30, 30⟩, ⟨0, 0⟩, false, false, ⟨defaultContains, fun _ => .cont⟩⟩]⟩
        (.mouseMove ⟨9, 9⟩) ⟨⟨9, 9⟩, false, false⟩).inner =
      (7, WidgetEvent.mouseEnter) :: tr ∧
      (6, WidgetEvent.mouseExit) ∈ tr :=
  C7_amended_enter_then_exit _ _ _ 7 (by decide) (by decide) _
    (List.mem_cons_self _ _) rfl (by decide)

/-! ## Lemmas about the non-`MouseMove` scan -/

/-- For events other than a `MouseMove`, the scan is the catch-all arm
of the loop. -/
theorem zscan_other_eq (e : WidgetEvent) (ctx : Context) (l : List Pod)
    (he : isMouseMove e = false) :
    zscan e ctx l = zscanOther e ctx l := by
  cases e <;> first | rfl | simp [isMouseMove] at he

/-- The non-`MouseMove` scan never records a hot child. -/
theorem zscanOther_hotId (e : WidgetEvent) (ctx : Context) (l : List Pod) :
    (zscanOther e ctx l).hotId = none := by
  induction l with
  | nil => rfl
  | cons w rest ih =>
    by_cases hb : (w.event e ctx).flow = .brk
    · simp [zscanOther, hb]
    · simp [zscanOther, hb, ih]

/-- The pod-level invocations of the non-`MouseMove` scan form an
order-preserving prefix of the scanned (reversed) child list, each
child invoked with the original event. -/
theorem zscanOther_sent_take (e : WidgetEvent) (ctx : Context) (l : List Pod) :
    ∃ n, n ≤ l.length ∧
      (zscanOther e ctx l).sent = (l.take n).map (fun w => (w.id, e)) := by
  induction l with
  | nil => exact ⟨0, by simp, rfl⟩
  | cons w rest ih =>
    by_cases hb : (w.event e ctx).flow = .brk
    · refine ⟨1, by simp, ?_⟩
      simp [zscanOther, hb]
    · obtain ⟨n, hn, hstep⟩ := ih
      refine ⟨n + 1, by simpa using hn, ?_⟩
      simp [zscanOther, hb, hstep]

/-- When the first `Break` of the non-`MouseMove` scan comes from
child `w` (every child above it continued), exactly the children from
the top down to `w` inclusive are invoked: children below `w` receive
nothing. -/
theorem zscanOther_first_brk (e : WidgetEvent) (ctx : Context) :
    ∀ (l₁ : List Pod) (w : Pod) (l₂ : List Pod),
      (∀ v ∈ l₁, (v.event e ctx).flow = .cont) →
      (w.event e ctx).flow = .brk →
      (zscanOther e ctx (l₁ ++ w :: l₂)).sent =
        (l₁ ++ [w]).map (fun v => (v.id, e)) := by
  intro l₁
  induction l₁ with
  | nil =>
    intro w l₂ _ hw
    simp [zscanOther, hw]
  | cons v rest ih =>
    intro w l₂ hpre hw
    have hv : (v.event e ctx).flow = .cont := hpre v (List.mem_cons_self _ _)
    have hvb : ¬(v.event e ctx).flow = .brk := by
      rw [hv]
      simp
    simp [zscanOther, hvb,
      ih w l₂ (fun u hu => hpre u (List.mem_cons_of_mem _ hu)) hw]

/-- For a non-`MouseMove` event the whole dispatch performs exactly
the scan's pod-level invocations (the exit loop never runs). -/
theorem eventFull_other_sent (z : ZStack) (e : WidgetEvent) (ctx : Context)
    (he : isMouseMove e = false) :
    (z.eventFull e ctx).sent = (zscanOther e ctx z.widgets.reverse).sent := by
  have h : (zscan e ctx z.widgets.reverse).hotId = none := by
    rw [zscan_other_eq e ctx _ he]
    exact zscanOther_hotId e ctx _
  rw [eventFull_none z e ctx h]
  dsimp only
  rw [zscan_other_eq e ctx _ he]

/-- C6: for every event other than a `MouseMove`, the children of a
`ZStack` are invoked in reverse child order (top to bottom) — the
invocation trace is an order-preserving prefix of the reversed child
list — and as soon as some child's handler returns `Break`, no child
below it in z-order is invoked: if `w` is the first breaker, exactly
the children above `w` plus `w` itself receive the event. -/
theorem C6_reverse_order_break_halts (z : ZStack) (e : WidgetEvent)
    (ctx : Context) (he : isMouseMove e = false) :
    (∃ n, n ≤ z.widgets.reverse.length ∧
      (z.eventFull e ctx).sent =
        (z.widgets.reverse.take n).map (fun w => (w.id, e))) ∧
    (∀ (l₁ : List Pod) (w : Pod) (l₂ : List Pod),
      z.widgets.reverse = l₁ ++ w :: l₂ →
      (∀ v ∈ l₁, (v.event e ctx).flow = .cont) →
      (w.event e ctx).flow = .brk →
      (z.eventFull e ctx).sent = (l₁ ++ [w]).map (fun v => (v.id, e))) := by
  constructor
  · obtain ⟨n, hn, hs⟩ := zscanOther_sent_take e ctx z.widgets.reverse
    exact ⟨n, hn, by rw [eventFull_other_sent z e ctx he, hs]⟩
  · intro l₁ w l₂ hsplit hpre hw
    rw [eventFull_other_sent z e ctx he, hsplit]
    exact zscanOther_first_brk e ctx l₁ w l₂ hpre hw

/-- C6 witness: a three-child stack receiving a `MouseUp`; the topmost
child (id 22) is active and its handler breaks, so it alone is
invoked and the two children below receive nothing. -/
theorem C6_witness :
    (ZStack.eventFull ⟨[
        ⟨20, ⟨10, 10⟩, ⟨0, 0⟩, false, true, ⟨defaultContains, fun _ => .cont⟩⟩,
        ⟨21, ⟨10, 10⟩, ⟨0, 0⟩, false, true, ⟨defaultContains, fun _ => .cont⟩⟩,
        ⟨22, ⟨10, 10⟩, ⟨0, 0⟩, false, true, ⟨defaultContains, fun _ => .brk⟩⟩]⟩
      (.mouseUp .left) ⟨⟨0, 0⟩, false, false⟩).sent =
      [(22, WidgetEvent.mouseUp .left)] := by
  have h := (C6_reverse_order_break_halts ⟨[
      ⟨20, ⟨10, 10⟩, ⟨0, 0⟩, false, true, ⟨defaultContains, fun _ => .cont⟩⟩,
      ⟨21, ⟨10, 10⟩, ⟨0, 0⟩, false, true, ⟨defaultContains, fun _ => .cont⟩⟩,
      ⟨22, ⟨10, 10⟩, ⟨0, 0⟩, false, true, ⟨defaultContains, fun _ => .brk⟩⟩]⟩
      (.mouseUp .left) ⟨⟨0, 0⟩, false, false⟩ (by decide)).2
    [] ⟨22, ⟨10, 10⟩, ⟨0, 0⟩, false, true, ⟨defaultContains, fun _ => .brk⟩⟩
    [⟨21, ⟨10, 10⟩, ⟨0, 0⟩, false, true, ⟨defaultContains, fun _ => .cont⟩⟩,
     ⟨20, ⟨10, 10⟩, ⟨0, 0⟩, false, true, ⟨defaultContains, fun _ => .cont⟩⟩]
    rfl (by simp) rfl
  simpa using h

/-- The reverse scan of a `MouseMove` finds a hot child as soon as
some child contains the point. -/
theorem zscanMove_hotId_of_mem (pt : Point) (ctx : Context) (l : List Pod)
    (h : ∃ w ∈ l, w.containsP pt = true) :
    (zscanMove pt ctx l).hotId ≠ none := by
  induction l with
  | nil =>
    obtain ⟨w, hw, -⟩ := h
    cases hw
  | cons w rest ih =>
    by_cases hc : w.containsP pt
    · simp [zscanMove, hc]
    · obtain ⟨v, hv, hcv⟩ := h
      rcases List.mem_cons.mp hv with rfl | hv'
      · exact absurd hcv (by simpa using hc)
      · simp only [zscanMove, hc, if_false, Bool.false_eq_true]
        exact ih ⟨v, hv', hcv⟩

/-- C10: the pod-level `contains` only subtracts the pod's offset and
delegates to the inner widget's `contains`; it never consults the
pod's cached rectangular bounds, so a pod whose inner widget keeps the
default `contains` (always true) reports containing every point —
whatever its size — and a `ZStack` holding such a child both reports
containing every point and always finds a hot child on a move scan. -/
theorem C10_pod_contains_delegates (z : ZStack) (p : Pod) (pt : Point)
    (ctx : Context) (hdef : p.widget.contains = defaultContains) :
    (p.containsP pt = p.widget.contains (pt.untranslate p.offset)) ∧
    (p.containsP pt = true) ∧
    (∀ s : Size, Pod.containsP { p with size := s } pt = true) ∧
    (p ∈ z.widgets → z.containsP pt = true ∧
      (z.eventFull (.mouseMove pt) ctx).hotId ≠ none) := by
  refine ⟨rfl, ?_, ?_, ?_⟩
  · simp [Pod.containsP, hdef, defaultContains]
  · intro s
    simp [Pod.containsP, hdef, defaultContains]
  · intro hp
    constructor
    · refine List.any_eq_true.mpr ⟨p, List.mem_reverse.mpr hp, ?_⟩
      simp [Pod.containsP, hdef, defaultContains]
    · rw [eventFull_hotId, zscan_move_eq]
      refine zscanMove_hotId_of_mem pt ctx _ ⟨p, List.mem_reverse.mpr hp, ?_⟩
      simp [Pod.containsP, hdef, defaultContains]

/-- C10 witness: a 10×10 pod with the default inner `contains` claims
to contain the far-away point (1000, 1000), and a stack holding it
claims so too. -/
theorem C10_witness :
    (Pod.containsP ⟨30, ⟨10, 10⟩, ⟨0, 0⟩, false, false,
        ⟨defaultContains, fun _ => .cont⟩⟩ ⟨1000, 1000⟩ = true) ∧
    (ZStack.containsP ⟨[⟨30, ⟨10, 10⟩, ⟨0, 0⟩, false, false,
        ⟨defaultContains, fun _ => .cont⟩⟩]⟩ ⟨1000, 1000⟩ = true) :=
  ⟨(C10_pod_contains_delegates ⟨[⟨30, ⟨10, 10⟩, ⟨0, 0⟩, false, false,
      ⟨defaultContains, fun _ => .cont⟩⟩]⟩ _ ⟨1000, 1000⟩
      ⟨⟨0, 0⟩, false, false⟩ rfl).2.1,
   ((C10_pod_contains_delegates ⟨[⟨30, ⟨10, 10⟩, ⟨0, 0⟩, false, false,
      ⟨defaultContains, fun _ => .cont⟩⟩]⟩ _ ⟨1000, 1000⟩
      ⟨⟨0, 0⟩, false, false⟩ rfl).2.2.2 (List.mem_cons_self _ _)).1⟩

/-- C9 counterexample: a frame queue holding two consecutive pointer
moves followed by a `MouseDown` is dispatched unchanged — the first of
the two consecutive moves is still dispatched, because the Rust
coalescing (application.rs, lines 305-314) only fires when *every*
queued event is a `MouseMove`, not per consecutive run. -/
theorem C9_counterexample :
    (coalesce [.mouseMove ⟨1, 1⟩, .mouseMove ⟨2, 2⟩, .mouseDown .left] =
      [.mouseMove ⟨1, 1⟩, .mouseMove ⟨2, 2⟩, .mouseDown .left]) ∧
    WidgetEvent.mouseMove ⟨1, 1⟩ ∈
      coalesce [.mouseMove ⟨1, 1⟩, .mouseMove ⟨2, 2⟩, .mouseDown .left] := by
  constructor <;> decide

/-- C9 (amended): when the frame's queue consists *entirely* of
pointer moves (and holds more than one), all but the last are dropped
— in particular three queued moves collapse to the last one; but as
soon as any non-move event sits anywhere in the queue, the queue is
dispatched unchanged, consecutive moves included. -/
theorem C9_coalesce_only_when_all_moves (p₁ p₂ p₃ : Point)
    (es : List WidgetEvent) (e : WidgetEvent)
    (he : isMouseMove e = false) (hmem : e ∈ es) :
    (coalesce [.mouseMove p₁, .mouseMove p₂, .mouseMove p₃] = [.mouseMove p₃]) ∧
    coalesce es = es := by
  constructor
  · simp [coalesce, isMouseMove]
  · unfold coalesce
    rw [if_neg]
    rintro ⟨-, hall⟩
    have hme := List.all_eq_true.mp hall e hmem
    rw [he] at hme
    cases hme

/-- C9 amended witness: three queued moves collapse to the last; a
lone non-move queue passes through unchanged. -/
theorem C9_witness :
    (coalesce [.mouseMove ⟨0, 0⟩, .mouseMove ⟨1, 1⟩, .mouseMove ⟨2, 2⟩] =
      [.mouseMove ⟨2, 2⟩]) ∧
    coalesce [.tick 5] = [.tick 5] :=
  C9_coalesce_only_when_all_moves ⟨0, 0⟩ ⟨1, 1⟩ ⟨2, 2⟩ [.tick 5] (.tick 5)
    (by decide) (by decide)

end Rgx

